import Mathlib

/-!
Verification of the near-zero task manager's pure core.

The development shallowly embeds the pure functions of the repository:
  - `src/utils/validation.js` (field and task validation, truncation),
  - the task-logic module (`removeTaskById`, `markTaskComplete`,
    `processTaskUpdate`, `processImportedTasks`, `exportTasks`),
  - `src/utils/sorting.js` (`sortByDeadline`, `sortByPriority`),
  - `src/utils/urgency.js` (`getTimeRemaining`, `isOverdue`,
    `getUrgencyColor`, `formatRelativeTime`).

JavaScript's dynamically typed primitive values are embedded as `JVal`.
Date parsing (`new Date(s).getTime()` / dayjs parsing) and the current
instant are supplied through an `Env` record: the functions are verified
for every parser and every value of "now", and concrete instantiations
evaluate the definitions on concrete inputs.  Milliseconds are embedded
as `Int` (JavaScript timestamps are integers well inside the exactly
representable double range).
-/

namespace NearZero

/-- Primitive JavaScript values as they occur in task records: strings,
numbers (timestamps and priorities, embedded as integers), booleans,
`null` and `undefined`. -/
inductive JVal where
  | vStr (s : String)
  | vNum (n : Int)
  | vBool (b : Bool)
  | vNull
  | vUndefined
deriving DecidableEq, Repr

/-- JavaScript truthiness of the modelled primitive values: the empty
string, `0`, `false`, `null` and `undefined` are falsy. -/
def truthy : JVal → Bool
  | .vStr s => s ≠ ""
  | .vNum n => n ≠ 0
  | .vBool b => b
  | .vNull => false
  | .vUndefined => false

/-- The JavaScript `a || b` operator on embedded values. -/
def jsOr (a b : JVal) : JVal :=
  if truthy a then a else b

/-- Whether a value is a number (`typeof v === 'number'`). -/
def JVal.isNum : JVal → Bool
  | .vNum _ => true
  | _ => false

/-- Evaluation environment: the date parser (`new Date(s).getTime()`,
`none` standing for an invalid date / `NaN`) and the current instant in
milliseconds.  The repository reads the clock via `Date.now()` /
`dayjs()`; embedding it as a parameter makes the functions deterministic,
exactly as the specification's dependency-injection reading prescribes. -/
structure Env where
  parseDate : String → Option Int
  now : Int

/-- A task record.  Every field holds an arbitrary JavaScript primitive
value, so records that violate the schema (the inputs validation exists
for) are representable; a field that is absent on a JavaScript object
reads as `undefined`. -/
structure Task where
  id : JVal
  title : JVal
  description : JVal
  deadline : JVal
  priority : JVal
  isCompleted : JVal
  createdAt : JVal
  lastModified : JVal
  schemaVersion : JVal
deriving DecidableEq, Repr

/-- Result of a single-field validator (`{valid, error}`). -/
structure FieldResult where
  valid : Bool
  error : Option String
deriving DecidableEq, Repr

/-- `String.prototype.trim`: strips leading and trailing whitespace. -/
def jsTrim (s : String) : String :=
  ⟨((s.data.dropWhile Char.isWhitespace).reverse.dropWhile Char.isWhitespace).reverse⟩

/-- `validateTitle` from `validation.js`: non-strings are rejected as
missing; strings that trim to the empty string are rejected. -/
def validateTitle (title : JVal) : FieldResult :=
  match title with
  | .vStr s =>
    if (jsTrim s).length = 0 then ⟨false, some "Title cannot be empty or whitespace"⟩
    else ⟨true, none⟩
  | _ => ⟨false, some "Title is required"⟩

/-- `validateDescription` from `validation.js`: `null`/`undefined` are
valid (optional field), non-strings are rejected, strings longer than
300 characters are rejected. -/
def validateDescription (description : JVal) : FieldResult :=
  match description with
  | .vNull => ⟨true, none⟩
  | .vUndefined => ⟨true, none⟩
  | .vStr s =>
    if s.length > 300 then ⟨false, some "Description must be 300 characters or less"⟩
    else ⟨true, none⟩
  | _ => ⟨false, some "Description must be a string"⟩

/-- `validateDeadline` from `validation.js`: falsy or non-string values
are "required" failures (`!deadline || typeof deadline !== 'string'`),
unparseable strings are format failures, instants strictly before now
(`isInPast`, dayjs `isBefore`) are past failures. -/
def validateDeadline (env : Env) (deadline : JVal) : FieldResult :=
  match deadline with
  | .vStr s =>
    if s = "" then ⟨false, some "Deadline is required"⟩
    else
      match env.parseDate s with
      | none => ⟨false, some "Invalid deadline format"⟩
      | some t =>
        if t < env.now then ⟨false, some "Deadline cannot be in the past"⟩
        else ⟨true, none⟩
  | _ => ⟨false, some "Deadline is required"⟩

/-- `validatePriority` from `validation.js`: `null`/`undefined` are valid
(optional), otherwise the value must be the number 1, 2 or 3. -/
def validatePriority (priority : JVal) : FieldResult :=
  match priority with
  | .vNull => ⟨true, none⟩
  | .vUndefined => ⟨true, none⟩
  | .vNum n =>
    if n = 1 ∨ n = 2 ∨ n = 3 then ⟨true, none⟩
    else ⟨false, some "Priority must be 1 (High), 2 (Medium), or 3 (Low)"⟩
  | _ => ⟨false, some "Priority must be 1 (High), 2 (Medium), or 3 (Low)"⟩

/-- Result of `validateTask` (`{valid, errors}`). -/
structure TaskValidation where
  valid : Bool
  errors : List String
deriving DecidableEq, Repr

/-- The `if (!r.valid) errors.push(r.error)` step of `validateTask`:
appends the failure message of an invalid field result. -/
def pushError (errors : List String) (r : FieldResult) : List String :=
  if r.valid then errors else errors ++ r.error.toList

/-- `validateTask` from `validation.js`: runs the four field validators
in source order (title, description, deadline, priority), accumulating
every failure message; `valid` is emptiness of the accumulated list. -/
def validateTask (env : Env) (task : Task) : TaskValidation :=
  let errors := pushError [] (validateTitle task.title)
  let errors := pushError errors (validateDescription task.description)
  let errors := pushError errors (validateDeadline env task.deadline)
  let errors := pushError errors (validatePriority task.priority)
  ⟨errors.isEmpty, errors⟩

/-- `truncateDescription` from `validation.js`: falsy or non-string input
yields `""`; strings longer than 300 characters are cut to their first
300 characters, shorter strings pass through unchanged. -/
def truncateDescription (description : JVal) : String :=
  match description with
  | .vStr s => if s = "" then "" else if s.length > 300 then s.take 300 else s
  | _ => ""

/-! ### Task logic (`removeTaskById`, `markTaskComplete`, `processTaskUpdate`) -/

/-- Result shape `{success, tasks, errors}` of the collection operations. -/
structure TasksResult where
  success : Bool
  tasks : List Task
  errors : List String
deriving DecidableEq, Repr

/-- `removeTaskById`: filters out every task with the given id; if the
filtered array has the same length the id was absent and the input
collection is returned unchanged with a not-found error. -/
def removeTaskById (tasks : List Task) (id : JVal) : TasksResult :=
  let filteredTasks := tasks.filter (fun task => task.id ≠ id)
  if tasks.length = filteredTasks.length then
    ⟨false, tasks, ["Task not found"]⟩
  else
    ⟨true, filteredTasks, []⟩

/-- `markTaskComplete`: finds the index of the task with the given id
(`findIndex`, `none` embedding `-1`); if absent, a not-found error.
Otherwise a copy of the array with that entry's `isCompleted` set to
`true` is built, and the task is then filtered out of it. -/
def markTaskComplete (tasks : List Task) (id : JVal) : TasksResult :=
  match tasks.findIdx? (fun task => task.id = id) with
  | none => ⟨false, tasks, ["Task not found"]⟩
  | some taskIndex =>
    let updatedTasks :=
      match tasks[taskIndex]? with
      | some t => tasks.set taskIndex { t with isCompleted := .vBool true }
      | none => tasks
    let filteredTasks := updatedTasks.filter (fun task => task.id ≠ id)
    ⟨true, filteredTasks, []⟩

/-- A partial update object: `none` embeds an absent key, `some v` a key
present with value `v` (possibly `undefined`).  Only the nine schema keys
are modelled; the shallow merge copies unknown keys verbatim, and the
verified properties do not depend on them. -/
structure Updates where
  id : Option JVal := none
  title : Option JVal := none
  description : Option JVal := none
  deadline : Option JVal := none
  priority : Option JVal := none
  isCompleted : Option JVal := none
  createdAt : Option JVal := none
  lastModified : Option JVal := none
  schemaVersion : Option JVal := none
deriving DecidableEq, Repr

/-- Result shape `{success, task, errors}` of the single-task operations. -/
structure UpdateResult where
  success : Bool
  task : Option Task
  errors : List String
deriving DecidableEq, Repr

/-- The merge step of `processTaskUpdate`:
`{...existingTask, ...updates, id: existingTask.id, createdAt:
existingTask.createdAt, lastModified: getCurrentUTC(), schemaVersion: 1}`
— the shallow merge takes each key from `updates` when present, and the
trailing literal keys overwrite `id`, `createdAt`, `lastModified` and
`schemaVersion` regardless of what `updates` carried for them. -/
def mergedTask (nowStr : String) (existingTask : Task) (updates : Updates) : Task :=
  { id := existingTask.id
    title := updates.title.getD existingTask.title
    description := updates.description.getD existingTask.description
    deadline := updates.deadline.getD existingTask.deadline
    priority := updates.priority.getD existingTask.priority
    isCompleted := updates.isCompleted.getD existingTask.isCompleted
    createdAt := existingTask.createdAt
    lastModified := .vStr nowStr
    schemaVersion := .vNum 1 }

/-- The re-truncation step of `processTaskUpdate`: a truthy post-merge
description is truncated. -/
def mergedTruncated (nowStr : String) (existingTask : Task) (updates : Updates) : Task :=
  if truthy (mergedTask nowStr existingTask updates).description then
    { mergedTask nowStr existingTask updates with
        description :=
          .vStr (truncateDescription (mergedTask nowStr existingTask updates).description) }
  else mergedTask nowStr existingTask updates

/-- `processTaskUpdate`: shallow-merges `updates` onto `existingTask`,
forcibly restoring `id` and `createdAt`, stamping `lastModified` with
the current instant (`getCurrentUTC()`, supplied here as `nowStr`),
re-truncating a truthy description, then re-validating — failure
returning `task: null`. -/
def processTaskUpdate (env : Env) (nowStr : String) (existingTask : Task)
    (updates : Updates) : UpdateResult :=
  let updatedTask := mergedTruncated nowStr existingTask updates
  let validation := validateTask env updatedTask
  if validation.valid = false then ⟨false, none, validation.errors⟩
  else ⟨true, some updatedTask, []⟩

/-! ### Import and export -/

/-- The argument of `processImportedTasks`: either an array of task
records or a non-array value (`Array.isArray` fails). -/
inductive JsArg where
  | array (tasks : List Task)
  | notArray (v : JVal)
deriving DecidableEq, Repr

/-- Result shape `{success, tasks, imported, errors}` of the import. -/
structure ImportResult where
  success : Bool
  tasks : List Task
  imported : Nat
  errors : List String
deriving DecidableEq, Repr

/-- The entry transformation of `processImportedTasks`:
`{...task, description: truncateDescription(task.description || ''), schemaVersion: 1}`. -/
def processedImport (task : Task) : Task :=
  { task with
    description := .vStr (truncateDescription (jsOr task.description (.vStr "")))
    schemaVersion := .vNum 1 }

/-- One iteration of the `forEach` body of `processImportedTasks`,
folding over the (0-based index, task) pairs: entries lacking a truthy
title or deadline record a missing-fields error; entries failing
validation record the joined validation errors; surviving entries are
pushed and counted.  The accumulator is (updatedTasks, errors, imported). -/
def importStep (env : Env) (acc : List Task × List String × Nat)
    (entry : Nat × Task) : List Task × List String × Nat :=
  let updatedTasks := acc.1
  let errors := acc.2.1
  let imported := acc.2.2
  let index := entry.1
  let task := entry.2
  if truthy task.title = false ∨ truthy task.deadline = false then
    (updatedTasks, errors ++ ["Task " ++ toString (index + 1) ++ ": missing required fields"],
      imported)
  else
    let processedTask := processedImport task
    let validation := validateTask env processedTask
    if validation.valid = false then
      (updatedTasks,
        errors ++ ["Task " ++ toString (index + 1) ++ ": "
          ++ String.intercalate ", " validation.errors],
        imported)
    else
      (updatedTasks ++ [processedTask], errors, imported + 1)

/-- `processImportedTasks`: fails fast on a non-array argument; otherwise
starts from a copy of `currentTasks` and folds the `forEach` body over
the indexed entries, always reporting outer success. -/
def processImportedTasks (env : Env) (currentTasks : List Task)
    (importedTasks : JsArg) : ImportResult :=
  match importedTasks with
  | .notArray _ => ⟨false, currentTasks, 0, ["Invalid import data: expected an array"]⟩
  | .array imported =>
    let res := imported.enum.foldl (importStep env) (currentTasks, [], 0)
    ⟨true, res.1, res.2.2, res.2.1⟩

/-- Specification-side classification of an import entry: the processed
task appended for accepted entries, `none` for rejected ones.  Used to
characterise the fold. -/
def acceptedTask (env : Env) (task : Task) : Option Task :=
  if truthy task.title && truthy task.deadline then
    if (validateTask env (processedImport task)).valid then some (processedImport task)
    else none
  else none

/-- Specification-side error of an import entry at a given 0-based
index, `none` for accepted entries.  Used to characterise the fold. -/
def entryError (env : Env) (index : Nat) (task : Task) : Option String :=
  if truthy task.title && truthy task.deadline then
    if (validateTask env (processedImport task)).valid then none
    else some ("Task " ++ toString (index + 1) ++ ": "
      ++ String.intercalate ", " (validateTask env (processedImport task)).errors)
  else some ("Task " ++ toString (index + 1) ++ ": missing required fields")

/-- JSON values.  `JSON.stringify(tasks, null, 2)` pretty-prints the
JSON value of a task collection and `JSON.parse` recovers exactly that
value from the printed text, so the export/parse pipeline is embedded at
the JSON-value level. -/
inductive Json where
  | jStr (s : String)
  | jNum (n : Int)
  | jBool (b : Bool)
  | jNull
  | jArr (elems : List Json)
  | jObj (fields : List (String × Json))

/-- How `JSON.stringify` serialises an embedded primitive object field:
`undefined`-valued keys are dropped (`none`), other primitives map to
their JSON counterparts. -/
def JVal.toJson : JVal → Option Json
  | .vStr s => some (.jStr s)
  | .vNum n => some (.jNum n)
  | .vBool b => some (.jBool b)
  | .vNull => some .jNull
  | .vUndefined => none

/-- The JSON value `JSON.stringify` serialises for one task record. -/
def Task.toJson (t : Task) : Json :=
  .jObj (List.filterMap (fun p => Option.map (fun j => (p.1, j)) (JVal.toJson p.2))
    [("id", t.id), ("title", t.title), ("description", t.description),
     ("deadline", t.deadline), ("priority", t.priority), ("isCompleted", t.isCompleted),
     ("createdAt", t.createdAt), ("lastModified", t.lastModified),
     ("schemaVersion", t.schemaVersion)])

/-- `exportTasks`: `JSON.stringify(tasks, null, 2)`, embedded as the
JSON value the produced text denotes. -/
def exportTasks (tasks : List Task) : Json :=
  .jArr (tasks.map Task.toJson)

/-- Reading a parsed JSON value back as a primitive field value;
composite values are not primitive (`none`). -/
def jsonPrimToJVal : Json → Option JVal
  | .jStr s => some (.vStr s)
  | .jNum n => some (.vNum n)
  | .jBool b => some (.vBool b)
  | .jNull => some .vNull
  | .jArr _ => none
  | .jObj _ => none

/-- Property access on a parsed JSON object: a missing key reads as
`undefined`. -/
def jsonField (fields : List (String × Json)) (key : String) : Option JVal :=
  match fields.lookup key with
  | some v => jsonPrimToJVal v
  | none => some .vUndefined

/-- Viewing a parsed JSON value as a task record (the nine schema keys,
each a primitive value). -/
def taskFromJson : Json → Option Task
  | .jObj fields => do
    let id ← jsonField fields "id"
    let title ← jsonField fields "title"
    let description ← jsonField fields "description"
    let deadline ← jsonField fields "deadline"
    let priority ← jsonField fields "priority"
    let isCompleted ← jsonField fields "isCompleted"
    let createdAt ← jsonField fields "createdAt"
    let lastModified ← jsonField fields "lastModified"
    let schemaVersion ← jsonField fields "schemaVersion"
    some ⟨id, title, description, deadline, priority, isCompleted, createdAt,
      lastModified, schemaVersion⟩
  | _ => none

/-- Viewing a parsed JSON value as a task collection. -/
def tasksFromJson : Json → Option (List Task)
  | .jArr elems =>
    elems.foldr (fun j acc => do
      let t ← taskFromJson j
      let ts ← acc
      some (t :: ts)) (some [])
  | _ => none

/-- Whether a field value is present (not `undefined`). -/
def JVal.isDefined : JVal → Bool
  | .vUndefined => false
  | _ => true

/-- Whether all nine schema fields of a record are present, as on every
task the application constructs. -/
def Task.fieldsDefined (t : Task) : Bool :=
  t.id.isDefined && t.title.isDefined && t.description.isDefined && t.deadline.isDefined &&
    t.priority.isDefined && t.isCompleted.isDefined && t.createdAt.isDefined &&
    t.lastModified.isDefined && t.schemaVersion.isDefined

/-! ### Sorting -/

/-- JavaScript numeric subtraction as used by the comparators.  On two
numbers it is exact; any other operand combination yields `NaN`, which
`Array.prototype.sort` treats as a zero comparator result, embedded here
as `0`.  (Numeric strings, which JavaScript would coerce, do not occur
on the verified domain of numeric priorities.) -/
def jsNumSub (a b : JVal) : Int :=
  match a, b with
  | .vNum x, .vNum y => x - y
  | _, _ => 0

/-- `new Date(v).getTime()` on a field value.  Unparseable or non-string
values give `NaN` in JavaScript; the embedding returns `0` for them and
the verified statements restrict to tasks whose date fields parse, where
the model is exact. -/
def dateMs (env : Env) : JVal → Int
  | .vStr s => (env.parseDate s).getD 0
  | _ => 0

/-- The comparator of `sortByDeadline`: deadline instants first, the
`createdAt` instant as tie-breaker. -/
def cmpDeadline (env : Env) (a b : Task) : Int :=
  let deadlineA := dateMs env a.deadline
  let deadlineB := dateMs env b.deadline
  if deadlineA ≠ deadlineB then deadlineA - deadlineB
  else dateMs env a.createdAt - dateMs env b.createdAt

/-- The comparator of `sortByPriority`: numeric priority first
(`a.priority !== b.priority` compared by strict equality), then the same
deadline/createdAt comparison as `sortByDeadline`. -/
def cmpPriority (env : Env) (a b : Task) : Int :=
  if a.priority ≠ b.priority then jsNumSub a.priority b.priority
  else cmpDeadline env a b

/-- Stable insertion of an element with respect to a numeric comparator:
the element goes before the first entry it does not compare after. -/
def insertCmp {α : Type} (cmp : α → α → Int) (x : α) : List α → List α
  | [] => [x]
  | y :: ys => if cmp x y ≤ 0 then x :: y :: ys else y :: insertCmp cmp x ys

/-- Stable comparator sort.  ES2019 `Array.prototype.sort` is stable and,
for a consistent comparator, returns the unique stable sorted permutation,
which stable insertion sort computes. -/
def sortCmp {α : Type} (cmp : α → α → Int) : List α → List α
  | [] => []
  | x :: xs => insertCmp cmp x (sortCmp cmp xs)

/-- `sortByDeadline` on an array value: empty input is returned as-is,
otherwise a copy is sorted with `cmpDeadline`. -/
def sortByDeadline (env : Env) (tasks : List Task) : List Task :=
  if tasks.length = 0 then tasks
  else sortCmp (cmpDeadline env) tasks

/-- `sortByPriority` on an array value: empty input is returned as-is,
otherwise a copy is sorted with `cmpPriority`. -/
def sortByPriority (env : Env) (tasks : List Task) : List Task :=
  if tasks.length = 0 then tasks
  else sortCmp (cmpPriority env) tasks

/-- Whether a field value is a string parsing to an instant. -/
def dateOk (env : Env) : JVal → Bool
  | .vStr s => (env.parseDate s).isSome
  | _ => false

/-- A task the sorting claims range over: numeric priority and parseable
deadline and creation instants. -/
def sortableTask (env : Env) (t : Task) : Bool :=
  t.priority.isNum && dateOk env t.deadline && dateOk env t.createdAt

/-- The numeric value of a number field (`0` for non-numbers, which do
not occur on the verified domain). -/
def numVal : JVal → Int
  | .vNum n => n
  | _ => 0

/-- The order `sortByPriority` is claimed to realise: ascending numeric
priority, ties broken by ascending parsed deadline instant, remaining
ties by ascending parsed `createdAt` instant. -/
def priorityOrder (env : Env) (a b : Task) : Prop :=
  numVal a.priority < numVal b.priority ∨
    (numVal a.priority = numVal b.priority ∧
      (dateMs env a.deadline < dateMs env b.deadline ∨
        (dateMs env a.deadline = dateMs env b.deadline ∧
          dateMs env a.createdAt ≤ dateMs env b.createdAt)))

/-! ### A heap of arrays, for reference-identity properties

JavaScript arrays are mutable references.  To state that a function does
not mutate its argument and returns a fresh array (rather than the same
reference), the array-taking entry points are additionally embedded
against an explicit store of arrays: references are indices, allocation
appends, and reading past the end is never performed by the embedded
code. -/

/-- The store of allocated arrays. -/
structure Heap where
  arrays : List (List Task)

/-- Dereference an array. -/
def Heap.read (h : Heap) (r : Nat) : List Task :=
  (h.arrays[r]?).getD []

/-- Allocate a fresh array, returning the new store and the reference. -/
def Heap.alloc (h : Heap) (ts : List Task) : Heap × Nat :=
  (⟨h.arrays ++ [ts]⟩, h.arrays.length)

/-- An argument that is either an array reference or a non-array value. -/
inductive JsInput where
  | arr (r : Nat)
  | other (v : JVal)
deriving DecidableEq, Repr

/-- `sortByDeadline` against the store: non-array and empty-array inputs
are returned as the very same reference with the store untouched;
otherwise `[...tasks]` allocates the copy that `.sort` then mutates in
place, so the allocation carries the sorted contents. -/
def sortByDeadlineH (env : Env) (h : Heap) (input : JsInput) : Heap × JsInput :=
  match input with
  | .other v => (h, .other v)
  | .arr r =>
    let tasks := h.read r
    if tasks.length = 0 then (h, .arr r)
    else
      let copy := h.alloc (sortCmp (cmpDeadline env) tasks)
      (copy.1, .arr copy.2)

/-- `sortByPriority` against the store; see `sortByDeadlineH`. -/
def sortByPriorityH (env : Env) (h : Heap) (input : JsInput) : Heap × JsInput :=
  match input with
  | .other v => (h, .other v)
  | .arr r =>
    let tasks := h.read r
    if tasks.length = 0 then (h, .arr r)
    else
      let copy := h.alloc (sortCmp (cmpPriority env) tasks)
      (copy.1, .arr copy.2)

/-- Result of the collection operations against the store: the `tasks`
component is an array reference. -/
structure TasksResultRef where
  success : Bool
  tasksRef : Nat
  errors : List String
deriving DecidableEq, Repr

/-- `removeTaskById` against the store: `.filter` always allocates the
filtered array; on the not-found path the very input reference is
returned, otherwise the fresh one. -/
def removeTaskByIdH (h : Heap) (r : Nat) (id : JVal) : Heap × TasksResultRef :=
  let tasks := h.read r
  let al := h.alloc (tasks.filter (fun task => task.id ≠ id))
  if tasks.length = (tasks.filter (fun task => task.id ≠ id)).length then
    (al.1, ⟨false, r, ["Task not found"]⟩)
  else
    (al.1, ⟨true, al.2, []⟩)

/-- `markTaskComplete` against the store: on the found path `[...tasks]`
allocates the copy whose entry is flagged completed, and `.filter`
allocates the returned array. -/
def markTaskCompleteH (h : Heap) (r : Nat) (id : JVal) : Heap × TasksResultRef :=
  let tasks := h.read r
  match tasks.findIdx? (fun task => task.id = id) with
  | none => (h, ⟨false, r, ["Task not found"]⟩)
  | some taskIndex =>
    let updatedTasks :=
      match tasks[taskIndex]? with
      | some t => tasks.set taskIndex { t with isCompleted := .vBool true }
      | none => tasks
    let al1 := h.alloc updatedTasks
    let al2 := al1.1.alloc (updatedTasks.filter (fun task => task.id ≠ id))
    (al2.1, ⟨true, al2.2, []⟩)

/-- Result of the import against the store. -/
structure ImportResultRef where
  success : Bool
  tasksRef : Nat
  imported : Nat
  errors : List String
deriving DecidableEq, Repr

/-- `processImportedTasks` against the store: the non-array failure
returns the very `currentTasks` reference; otherwise `[...currentTasks]`
allocates the array the loop pushes onto, whose final contents are the
pure result. -/
def processImportedTasksH (env : Env) (h : Heap) (rCur : Nat) (arg : JsInput) :
    Heap × ImportResultRef :=
  match arg with
  | .other _ => (h, ⟨false, rCur, 0, ["Invalid import data: expected an array"]⟩)
  | .arr rImp =>
    let res := processImportedTasks env (h.read rCur) (.array (h.read rImp))
    let al := h.alloc res.tasks
    (al.1, ⟨true, al.2, res.imported, res.errors⟩)

/-! ### Urgency -/

/-- `getTimeRemaining` from `urgency.js`: the deadline instant minus the
current instant, in milliseconds.  The verified statements restrict to
parseable deadlines (an unparseable one would propagate `NaN`). -/
def getTimeRemaining (env : Env) (deadline : String) (now : Int) : Int :=
  (env.parseDate deadline).getD 0 - now

/-- `isOverdue` from `urgency.js`. -/
def isOverdue (env : Env) (deadline : String) (now : Int) : Bool :=
  getTimeRemaining env deadline now < 0

/-- An urgency colouring (`{borderColor, backgroundColor}`). -/
structure UrgencyColor where
  borderColor : String
  backgroundColor : String
deriving DecidableEq, Repr

/-- `getUrgencyColor` from `urgency.js`: overdue deadlines get no
colouring; otherwise the exact hours remaining (millisecond remainder
divided by 3600000, a real division embedded in `ℚ`) is compared with
strict less-than against 1, 6 and 24. -/
def getUrgencyColor (env : Env) (deadline : String) (now : Int) : Option UrgencyColor :=
  let remaining := getTimeRemaining env deadline now
  let hoursRemaining : ℚ := (remaining : ℚ) / (60 * 60 * 1000)
  if remaining < 0 then none
  else if hoursRemaining < 1 then some ⟨"var(--red-6)", "var(--red-1)"⟩
  else if hoursRemaining < 6 then some ⟨"var(--orange-6)", "var(--orange-1)"⟩
  else if hoursRemaining < 24 then some ⟨"var(--yellow-6)", "var(--yellow-1)"⟩
  else none

/-- `formatRelativeTime` from `urgency.js`.  `Math.abs`/`Math.floor` on
the millisecond remainder are exact on integers, embedded as `Int.natAbs`
and natural division. -/
def formatRelativeTime (env : Env) (deadline : String) (now : Int) : String :=
  let remaining := getTimeRemaining env deadline now
  if remaining = 0 then "Due now"
  else
    let absRemaining := remaining.natAbs
    let hours := absRemaining / (60 * 60 * 1000)
    let minutes := absRemaining % (60 * 60 * 1000) / (60 * 1000)
    let timeStr :=
      if hours > 0 then
        toString hours ++ "h" ++ (if minutes > 0 then " " ++ toString minutes ++ "m" else "")
      else if minutes > 0 then toString minutes ++ "m"
      else ""
    if remaining < 0 then "Overdue by " ++ timeStr else "Due in " ++ timeStr

/-- The fixed instant of the concrete urgency scenario. -/
def scenarioNow : Int := 1000000000

/-- A concrete date parser for the urgency scenario: a deadline 30
minutes ahead, one 3 hours ahead, one 10 minutes ago. -/
def scenarioEnv : Env :=
  ⟨fun s =>
    if s = "in30min" then some (scenarioNow + 30 * 60 * 1000)
    else if s = "in3h" then some (scenarioNow + 3 * 60 * 60 * 1000)
    else if s = "ago10min" then some (scenarioNow - 10 * 60 * 1000)
    else none, scenarioNow⟩

/-- A concrete well-formed task record, for witness instantiations. -/
def sampleTask (id : String) (priority : Int) (deadline createdAt : String) : Task :=
  ⟨.vStr id, .vStr ("Task " ++ id), .vStr "", .vStr deadline, .vNum priority,
   .vBool false, .vStr createdAt, .vStr createdAt, .vNum 1⟩

/-- A concrete date parser for the priority-sort scenario: three deadline
days and a common creation instant. -/
def sortScenarioEnv : Env :=
  ⟨fun s =>
    if s = "day1" then some 1000
    else if s = "day2" then some 2000
    else if s = "day3" then some 3000
    else if s = "created" then some 0
    else none, 0⟩

/-- Scenario task A: priority 3 (Low), deadline day 1. -/
def taskA : Task := sampleTask "A" 3 "day1" "created"

/-- Scenario task B: priority 1 (High), deadline day 3. -/
def taskB : Task := sampleTask "B" 1 "day3" "created"

/-- Scenario task C: priority 2 (Medium), deadline day 2. -/
def taskC : Task := sampleTask "C" 2 "day2" "created"

/-- Whether a value is a string of at most 300 characters. -/
def isShortString : JVal → Bool
  | .vStr s => s.length ≤ 300
  | _ => false

/-- A concrete environment for the duplicate-import instance. -/
def dupEnv : Env := ⟨fun s => if s = "D" then some 100 else none, 0⟩

/-- A concrete valid task whose id will be duplicated by re-import. -/
def dupTask : Task := sampleTask "dup" 1 "D" "D"

/-! ### Helper lemmas about validation -/

theorem pushError_eq (errors : List String) (r : FieldResult) :
    pushError errors r = errors ++ pushError [] r := by
  unfold pushError
  by_cases h : r.valid <;> simp [h]

theorem validateTask_errors (env : Env) (task : Task) :
    (validateTask env task).errors =
      pushError [] (validateTitle task.title)
        ++ pushError [] (validateDescription task.description)
        ++ pushError [] (validateDeadline env task.deadline)
        ++ pushError [] (validatePriority task.priority) := by
  show pushError (pushError (pushError (pushError [] (validateTitle task.title))
      (validateDescription task.description)) (validateDeadline env task.deadline))
      (validatePriority task.priority) = _
  rw [pushError_eq (pushError (pushError (pushError [] (validateTitle task.title))
        (validateDescription task.description)) (validateDeadline env task.deadline))
      (validatePriority task.priority),
    pushError_eq (pushError (pushError [] (validateTitle task.title))
        (validateDescription task.description)) (validateDeadline env task.deadline),
    pushError_eq (pushError [] (validateTitle task.title))
      (validateDescription task.description)]

theorem validateTask_valid_iff (env : Env) (task : Task) :
    (validateTask env task).valid = true ↔ (validateTask env task).errors = [] := by
  unfold validateTask
  simp [List.isEmpty_iff]

theorem validateTitle_invalid_error (title : JVal)
    (h : (validateTitle title).valid = false) :
    ∃ e, (validateTitle title).error = some e := by
  unfold validateTitle at h ⊢
  cases title with
  | vStr s =>
    by_cases hs : (jsTrim s).length = 0
    · simp [hs]
    · simp [hs] at h
  | vNum n => simp
  | vBool b => simp
  | vNull => simp
  | vUndefined => simp

theorem validateDescription_invalid_error (d : JVal)
    (h : (validateDescription d).valid = false) :
    ∃ e, (validateDescription d).error = some e := by
  unfold validateDescription at h ⊢
  cases d with
  | vStr s =>
    by_cases hs : s.length > 300
    · simp [hs]
    · simp [hs] at h
  | vNum n => simp
  | vBool b => simp
  | vNull => simp at h
  | vUndefined => simp at h

theorem validateDeadline_invalid_error (env : Env) (d : JVal)
    (h : (validateDeadline env d).valid = false) :
    ∃ e, (validateDeadline env d).error = some e := by
  unfold validateDeadline at h ⊢
  cases d with
  | vStr s =>
    by_cases hs : s = ""
    · simp [hs]
    · simp only [if_neg hs] at h ⊢
      cases henv : env.parseDate s with
      | none => simp [henv]
      | some t =>
        simp only [henv] at h ⊢
        by_cases ht : t < env.now
        · simp [ht]
        · simp [ht] at h
  | vNum n => simp
  | vBool b => simp
  | vNull => simp
  | vUndefined => simp

theorem validatePriority_invalid_error (p : JVal)
    (h : (validatePriority p).valid = false) :
    ∃ e, (validatePriority p).error = some e := by
  unfold validatePriority at h ⊢
  cases p with
  | vStr s => simp
  | vNum n =>
    by_cases hn : n = 1 ∨ n = 2 ∨ n = 3
    · simp [hn] at h
    · simp [hn]
  | vBool b => simp
  | vNull => simp at h
  | vUndefined => simp at h

theorem pushError_invalid (r : FieldResult) (e : String)
    (hv : r.valid = false) (he : r.error = some e) :
    pushError [] r = [e] := by
  unfold pushError
  simp [hv, he]

/-! ### Claim C4 -/

/-- Claim C4: for every task object, `validateTask` returns `{valid, errors}`
where `errors` is exactly the concatenation of the failure messages of
`validateTitle`, `validateDescription`, `validateDeadline` and
`validatePriority` in that fixed order (never short-circuiting), `valid`
holds exactly when `errors` is empty, and a task whose four fields are
all invalid yields exactly the 4 errors in that order. -/
theorem validateTask_collects_all_errors (env : Env) (task : Task) :
    (validateTask env task).errors =
      pushError [] (validateTitle task.title)
        ++ pushError [] (validateDescription task.description)
        ++ pushError [] (validateDeadline env task.deadline)
        ++ pushError [] (validatePriority task.priority)
    ∧ ((validateTask env task).valid = true ↔ (validateTask env task).errors = [])
    ∧ ((validateTitle task.title).valid = false →
       (validateDescription task.description).valid = false →
       (validateDeadline env task.deadline).valid = false →
       (validatePriority task.priority).valid = false →
       ∃ e1 e2 e3 e4,
         (validateTitle task.title).error = some e1 ∧
         (validateDescription task.description).error = some e2 ∧
         (validateDeadline env task.deadline).error = some e3 ∧
         (validatePriority task.priority).error = some e4 ∧
         (validateTask env task).errors = [e1, e2, e3, e4]) := by
  refine ⟨validateTask_errors env task, validateTask_valid_iff env task, ?_⟩
  intro h1 h2 h3 h4
  obtain ⟨e1, he1⟩ := validateTitle_invalid_error _ h1
  obtain ⟨e2, he2⟩ := validateDescription_invalid_error _ h2
  obtain ⟨e3, he3⟩ := validateDeadline_invalid_error env _ h3
  obtain ⟨e4, he4⟩ := validatePriority_invalid_error _ h4
  refine ⟨e1, e2, e3, e4, he1, he2, he3, he4, ?_⟩
  rw [validateTask_errors env task,
    pushError_invalid _ _ h1 he1, pushError_invalid _ _ h2 he2,
    pushError_invalid _ _ h3 he3, pushError_invalid _ _ h4 he4]
  rfl

/-! ### Lemmas for the remove/complete equivalence -/

theorem filter_set_eq {α : Type} {p : α → Bool} (l : List α) (i : Nat) (a b : α)
    (hget : l[i]? = some a) (hpa : p a = false) (hpb : p b = false) :
    (l.set i b).filter p = l.filter p := by
  induction l generalizing i with
  | nil => simp at hget
  | cons x xs ih =>
    cases i with
    | zero =>
      simp only [List.getElem?_cons_zero, Option.some.injEq] at hget
      subst hget
      simp [List.filter_cons, hpa, hpb]
    | succ n =>
      simp only [List.getElem?_cons_succ] at hget
      simp [List.filter_cons, ih n hget]

theorem Heap.read_alloc_lt (h : Heap) (ts : List Task) (i : Nat)
    (hi : i < h.arrays.length) :
    (h.alloc ts).1.read i = h.read i := by
  unfold Heap.alloc Heap.read
  rw [List.getElem?_append, if_pos hi]

theorem Heap.read_alloc_self (h : Heap) (ts : List Task) :
    (h.alloc ts).1.read (h.alloc ts).2 = ts := by
  unfold Heap.alloc Heap.read
  simp

theorem Heap.read_alloc_alloc_lt (h : Heap) (ts1 ts2 : List Task) (i : Nat)
    (hi : i < h.arrays.length) :
    ((h.alloc ts1).1.alloc ts2).1.read i = h.read i := by
  rw [Heap.read_alloc_lt _ _ _ (by simp [Heap.alloc]; omega),
    Heap.read_alloc_lt _ _ _ hi]

theorem removeTaskById_not_found (tasks : List Task) (id : JVal)
    (h : ∀ t ∈ tasks, t.id ≠ id) :
    removeTaskById tasks id = ⟨false, tasks, ["Task not found"]⟩ := by
  unfold removeTaskById
  have hall : ∀ t ∈ tasks, (decide (t.id ≠ id)) = true := by
    intro t ht
    simpa using h t ht
  rw [if_pos ((List.filter_length_eq_length.mpr hall).symm)]

theorem removeTaskById_found (tasks : List Task) (id : JVal)
    (h : ∃ t ∈ tasks, t.id = id) :
    removeTaskById tasks id = ⟨true, tasks.filter (fun t => t.id ≠ id), []⟩ := by
  unfold removeTaskById
  obtain ⟨t, ht, hid⟩ := h
  rw [if_neg]
  intro hlen
  have := List.filter_length_eq_length.mp hlen.symm t ht
  simp [hid] at this

theorem markTaskComplete_eq (tasks : List Task) (id : JVal) :
    markTaskComplete tasks id = removeTaskById tasks id := by
  unfold markTaskComplete
  cases hf : tasks.findIdx? (fun task => task.id = id) with
  | none =>
    rw [List.findIdx?_eq_none_iff] at hf
    refine (removeTaskById_not_found tasks id ?_).symm
    intro t ht
    simpa using hf t ht
  | some i =>
    rw [List.findIdx?_eq_some_iff_getElem] at hf
    obtain ⟨hi, hpi, -⟩ := hf
    have hgi : tasks[i]? = some tasks[i] := List.getElem?_eq_getElem hi
    have hid : tasks[i].id = id := by simpa using hpi
    rw [removeTaskById_found tasks id ⟨tasks[i], List.getElem_mem hi, hid⟩]
    simp only [hgi]
    rw [filter_set_eq tasks i tasks[i] _ hgi (by simp [hid]) (by simp [hid])]

/-! ### Claim C1 -/

/-- Claim C1: `markTaskComplete` and `removeTaskById` produce equal results
on every collection and id.  When no task has the id, both return
`success: false` with the very input collection and the single error
`"Task not found"`; when the id occurs, both return `success: true` with
the input minus the matching task (the remaining tasks in their input
order, a sublist of the input); the embedding is pure, and the
store-level versions leave every previously allocated array — the input
included — unchanged, returning an array reference whose contents are
the pure result (the input reference itself on the not-found path, a
freshly allocated array otherwise). -/
theorem markTaskComplete_equiv_removeTaskById (tasks : List Task) (id : JVal) :
    markTaskComplete tasks id = removeTaskById tasks id
    ∧ ((∀ t ∈ tasks, t.id ≠ id) →
        markTaskComplete tasks id = ⟨false, tasks, ["Task not found"]⟩ ∧
        removeTaskById tasks id = ⟨false, tasks, ["Task not found"]⟩)
    ∧ ((∃ t ∈ tasks, t.id = id) →
        markTaskComplete tasks id = ⟨true, tasks.filter (fun t => t.id ≠ id), []⟩ ∧
        removeTaskById tasks id = ⟨true, tasks.filter (fun t => t.id ≠ id), []⟩ ∧
        (tasks.filter (fun t => t.id ≠ id)).Sublist tasks)
    ∧ (∀ l1 t l2, tasks = l1 ++ t :: l2 → t.id = id →
        (∀ u ∈ l1, u.id ≠ id) → (∀ u ∈ l2, u.id ≠ id) →
        (markTaskComplete tasks id).tasks = l1 ++ l2)
    ∧ (∀ h r i, i < h.arrays.length →
        (removeTaskByIdH h r id).1.read i = h.read i ∧
        (markTaskCompleteH h r id).1.read i = h.read i)
    ∧ (∀ h r, r < h.arrays.length →
        (removeTaskByIdH h r id).1.read (removeTaskByIdH h r id).2.tasksRef =
          (removeTaskById (h.read r) id).tasks ∧
        (markTaskCompleteH h r id).1.read (markTaskCompleteH h r id).2.tasksRef =
          (markTaskComplete (h.read r) id).tasks) := by
  have hmain := markTaskComplete_eq tasks id
  refine ⟨hmain, ?_, ?_, ?_, ?_, ?_⟩
  · intro hno
    have hr := removeTaskById_not_found tasks id hno
    exact ⟨hmain.trans hr, hr⟩
  · intro hyes
    have hr := removeTaskById_found tasks id hyes
    exact ⟨hmain.trans hr, hr, List.filter_sublist tasks⟩
  · intro l1 t l2 hsplit hid h1 h2
    subst hsplit
    have hex : ∃ u ∈ l1 ++ t :: l2, u.id = id := ⟨t, by simp, hid⟩
    rw [(markTaskComplete_eq _ id).trans (removeTaskById_found _ id hex)]
    have e1 : List.filter (fun u => !decide (u.id = id)) l1 = l1 :=
      List.filter_eq_self.mpr (fun a ha => by simpa using h1 a ha)
    have e2 : List.filter (fun u => !decide (u.id = id)) l2 = l2 :=
      List.filter_eq_self.mpr (fun a ha => by simpa using h2 a ha)
    simp [List.filter_append, List.filter_cons, hid, e1, e2]
  · intro h r i hi
    constructor
    · simp only [removeTaskByIdH]
      split
      · exact Heap.read_alloc_lt h _ i hi
      · exact Heap.read_alloc_lt h _ i hi
    · simp only [markTaskCompleteH]
      cases hf : (h.read r).findIdx? (fun task => task.id = id) with
      | none => simp only [hf]
      | some j =>
        simp only [hf]
        exact Heap.read_alloc_alloc_lt h _ _ i hi
  · intro h r hr
    constructor
    · simp only [removeTaskByIdH, removeTaskById]
      by_cases hlen :
          (h.read r).length = ((h.read r).filter (fun task => task.id ≠ id)).length
      · simp only [if_pos hlen]
        exact Heap.read_alloc_lt h _ r hr
      · simp only [if_neg hlen]
        exact Heap.read_alloc_self h _
    · simp only [markTaskCompleteH, markTaskComplete]
      cases hf : (h.read r).findIdx? (fun task => task.id = id) with
      | none => simp only [hf]
      | some j =>
        simp only [hf]
        exact Heap.read_alloc_self _ _

/-- Witness for C1: on a concrete two-task collection, completing the
first task yields the collection holding only the second, through the
found-case conjunct of the equivalence theorem. -/
theorem markTaskComplete_equiv_removeTaskById_witness :
    (markTaskComplete [sampleTask "a" 1 "d1" "c1", sampleTask "b" 2 "d2" "c2"]
      (.vStr "a")).tasks = [sampleTask "b" 2 "d2" "c2"] := by
  have h := (markTaskComplete_equiv_removeTaskById
      [sampleTask "a" 1 "d1" "c1", sampleTask "b" 2 "d2" "c2"] (.vStr "a")).2.2.1
      ⟨sampleTask "a" 1 "d1" "c1", by decide, by decide⟩
  rw [h.1]
  decide

/-- Witness for C4: a concrete task with all four fields invalid (numeric
title, numeric description, absent deadline, out-of-range priority)
yields exactly the four messages in order. -/
theorem validateTask_collects_all_errors_witness :
    (validateTask ⟨fun _ => none, 0⟩
        ⟨.vUndefined, .vNum 3, .vNum 7, .vUndefined, .vNum 9, .vBool false, .vUndefined, .vUndefined, .vNum 1⟩).errors =
      ["Title is required", "Description must be a string",
       "Deadline is required", "Priority must be 1 (High), 2 (Medium), or 3 (Low)"] := by
  obtain ⟨e1, e2, e3, e4, he1, he2, he3, he4, he⟩ :=
    (validateTask_collects_all_errors ⟨fun _ => none, 0⟩
      ⟨.vUndefined, .vNum 3, .vNum 7, .vUndefined, .vNum 9, .vBool false, .vUndefined, .vUndefined, .vNum 1⟩).2.2
      (by decide) (by decide) (by decide) (by decide)
  have h1 : e1 = "Title is required" :=
    Option.some_injective _ (he1.symm.trans (by decide))
  have h2 : e2 = "Description must be a string" :=
    Option.some_injective _ (he2.symm.trans (by decide))
  have h3 : e3 = "Deadline is required" :=
    Option.some_injective _ (he3.symm.trans (by decide))
  have h4 : e4 = "Priority must be 1 (High), 2 (Medium), or 3 (Low)" :=
    Option.some_injective _ (he4.symm.trans (by decide))
  rw [he, h1, h2, h3, h4]

/-! ### Claim C2 -/

/-- Counterexample to C2 as stated: with a deadline 30 seconds ahead
(remaining nonzero, hours = 0 and minutes = 0), `formatRelativeTime`
returns `"Due in "` with an empty time portion — not `"Due in 0m"` as
the claim's final clause asserts. -/
theorem formatRelativeTime_no_zero_minutes :
    formatRelativeTime ⟨fun s => if s = "D" then some 30000 else none, 0⟩ "D" 0 = "Due in "
    ∧ "Due in " ≠ "Due in 0m" := by
  exact ⟨by decide, by decide⟩

/-- Claim C2 (amended): for every parseable deadline and every `now`,
with `remaining = deadline - now`, `hours = floor(|remaining| / 3600000)`
and `minutes = floor((|remaining| mod 3600000) / 60000)`,
`formatRelativeTime` returns `"Due now"` when remaining is exactly 0 and
otherwise the prefix `"Due in "` (remaining > 0) or `"Overdue by "`
(remaining < 0) followed by `"{h}h {m}m"` when hours > 0 and minutes > 0,
`"{h}h"` when hours > 0 and minutes = 0, and `"{m}m"` when hours = 0 and
minutes > 0; when hours = 0 and minutes = 0 with remaining nonzero the
time portion is empty (the bare prefix), not `"0m"`. -/
theorem formatRelativeTime_cases (env : Env) (deadline : String) (now d : Int)
    (hparse : env.parseDate deadline = some d) :
    (d - now = 0 → formatRelativeTime env deadline now = "Due now")
    ∧ (d - now ≠ 0 → (d - now).natAbs / 3600000 > 0 → (d - now).natAbs % 3600000 / 60000 > 0 →
        formatRelativeTime env deadline now =
          (if 0 < d - now then "Due in " else "Overdue by ")
            ++ toString ((d - now).natAbs / 3600000) ++ "h "
            ++ toString ((d - now).natAbs % 3600000 / 60000) ++ "m")
    ∧ (d - now ≠ 0 → (d - now).natAbs / 3600000 > 0 → (d - now).natAbs % 3600000 / 60000 = 0 →
        formatRelativeTime env deadline now =
          (if 0 < d - now then "Due in " else "Overdue by ")
            ++ toString ((d - now).natAbs / 3600000) ++ "h")
    ∧ (d - now ≠ 0 → (d - now).natAbs / 3600000 = 0 → (d - now).natAbs % 3600000 / 60000 > 0 →
        formatRelativeTime env deadline now =
          (if 0 < d - now then "Due in " else "Overdue by ")
            ++ toString ((d - now).natAbs % 3600000 / 60000) ++ "m")
    ∧ (d - now ≠ 0 → (d - now).natAbs / 3600000 = 0 → (d - now).natAbs % 3600000 / 60000 = 0 →
        formatRelativeTime env deadline now =
          (if 0 < d - now then "Due in " else "Overdue by ")) := by
  have hrem : getTimeRemaining env deadline now = d - now := by
    simp [getTimeRemaining, hparse]
  have e1 : (60 * 60 * 1000 : Nat) = 3600000 := by norm_num
  have e2 : (60 * 1000 : Nat) = 60000 := by norm_num
  refine ⟨?_, ?_, ?_, ?_, ?_⟩
  · intro h0
    simp [formatRelativeTime, hrem, h0]
  · intro hne hh hm
    simp only [formatRelativeTime, hrem, e1, e2]
    rw [if_neg hne, if_pos hh, if_pos hm]
    by_cases hneg : d - now < 0
    · rw [if_pos hneg, if_neg (by omega : ¬ 0 < d - now)]
      simp only [String.append_assoc]
      rw [← String.append_assoc "h" " ", (by decide : ("h" ++ " " : String) = "h ")]
    · rw [if_neg hneg, if_pos (by omega : 0 < d - now)]
      simp only [String.append_assoc]
      rw [← String.append_assoc "h" " ", (by decide : ("h" ++ " " : String) = "h ")]
  · intro hne hh hm
    simp only [formatRelativeTime, hrem, e1, e2]
    rw [if_neg hne, if_pos hh, if_neg (by omega : ¬ (d - now).natAbs % 3600000 / 60000 > 0)]
    by_cases hneg : d - now < 0
    · rw [if_pos hneg, if_neg (by omega : ¬ 0 < d - now)]
      simp [String.append_assoc]
    · rw [if_neg hneg, if_pos (by omega : 0 < d - now)]
      simp [String.append_assoc]
  · intro hne hh hm
    simp only [formatRelativeTime, hrem, e1, e2]
    rw [if_neg hne, if_neg (by omega : ¬ (d - now).natAbs / 3600000 > 0), if_pos hm]
    by_cases hneg : d - now < 0
    · rw [if_pos hneg, if_neg (by omega : ¬ 0 < d - now)]
      simp [String.append_assoc]
    · rw [if_neg hneg, if_pos (by omega : 0 < d - now)]
      simp [String.append_assoc]
  · intro hne hh hm
    simp only [formatRelativeTime, hrem, e1, e2]
    rw [if_neg hne, if_neg (by omega : ¬ (d - now).natAbs / 3600000 > 0),
      if_neg (by omega : ¬ (d - now).natAbs % 3600000 / 60000 > 0)]
    by_cases hneg : d - now < 0
    · rw [if_pos hneg, if_neg (by omega : ¬ 0 < d - now)]
      decide
    · rw [if_neg hneg, if_pos (by omega : 0 < d - now)]
      decide

/-- Witness for C2 (amended): a deadline 3 hours 30 minutes ahead renders
as `"Due in 3h 30m"`. -/
theorem formatRelativeTime_cases_witness :
    formatRelativeTime ⟨fun s => if s = "D" then some 12600000 else none, 0⟩ "D" 0 =
      "Due in 3h 30m" := by
  have h := (formatRelativeTime_cases ⟨fun s => if s = "D" then some 12600000 else none, 0⟩
      "D" 0 12600000 (by decide)).2.1 (by decide) (by decide) (by decide)
  rw [h]
  decide

/-! ### Claim C5 -/

/-- Claim C5: urgency classification compares the exact hours remaining
(millisecond remainder divided by 3600000) with strict less-than against
the thresholds 1, 6, 24, the tiers half-open on the lower bound: for a
non-overdue deadline, the red (critical) tier holds exactly when
hoursRemaining < 1, the orange (warning) tier exactly when
1 ≤ hoursRemaining < 6, the yellow (low-warning) tier exactly when
6 ≤ hoursRemaining < 24; `isOverdue` holds exactly when
`getTimeRemaining` is negative; and concretely, with now fixed, a
deadline 30 minutes ahead is in the critical tier, 3 hours ahead in the
warning tier, and 10 minutes ago overdue. -/
theorem getUrgencyColor_tiers (env : Env) (deadline : String) (now d : Int)
    (hparse : env.parseDate deadline = some d) :
    (isOverdue env deadline now = true ↔ getTimeRemaining env deadline now < 0)
    ∧ (0 ≤ d - now →
        ((getUrgencyColor env deadline now = some ⟨"var(--red-6)", "var(--red-1)"⟩ ↔
            ((d - now : ℚ) / 3600000 < 1))
          ∧ (getUrgencyColor env deadline now = some ⟨"var(--orange-6)", "var(--orange-1)"⟩ ↔
            (1 ≤ (d - now : ℚ) / 3600000 ∧ (d - now : ℚ) / 3600000 < 6))
          ∧ (getUrgencyColor env deadline now = some ⟨"var(--yellow-6)", "var(--yellow-1)"⟩ ↔
            (6 ≤ (d - now : ℚ) / 3600000 ∧ (d - now : ℚ) / 3600000 < 24))))
    ∧ getUrgencyColor scenarioEnv "in30min" scenarioNow =
        some ⟨"var(--red-6)", "var(--red-1)"⟩
    ∧ getUrgencyColor scenarioEnv "in3h" scenarioNow =
        some ⟨"var(--orange-6)", "var(--orange-1)"⟩
    ∧ isOverdue scenarioEnv "ago10min" scenarioNow = true := by
  have hrem : getTimeRemaining env deadline now = d - now := by
    simp [getTimeRemaining, hparse]
  have ecast : ((60 : ℚ) * 60 * 1000) = 3600000 := by norm_num
  refine ⟨?_, ?_, ?_, ?_, by decide⟩
  · simp [isOverdue, hrem]
  · intro hge
    have hnneg : ¬ (d - now < 0) := by omega
    refine ⟨?_, ?_, ?_⟩
    · simp only [getUrgencyColor, hrem, Int.cast_sub, ecast]
      rw [if_neg hnneg]
      by_cases h1 : (d - now : ℚ) / 3600000 < 1
      · rw [if_pos h1]
        exact iff_of_true rfl h1
      · rw [if_neg h1]
        by_cases h6 : (d - now : ℚ) / 3600000 < 6
        · rw [if_pos h6]
          exact iff_of_false (by decide) h1
        · rw [if_neg h6]
          by_cases h24 : (d - now : ℚ) / 3600000 < 24
          · rw [if_pos h24]
            exact iff_of_false (by decide) h1
          · rw [if_neg h24]
            exact iff_of_false (by decide) h1
    · simp only [getUrgencyColor, hrem, Int.cast_sub, ecast]
      rw [if_neg hnneg]
      by_cases h1 : (d - now : ℚ) / 3600000 < 1
      · rw [if_pos h1]
        exact iff_of_false (by decide) (fun hc => by linarith [hc.1])
      · rw [if_neg h1]
        by_cases h6 : (d - now : ℚ) / 3600000 < 6
        · rw [if_pos h6]
          exact iff_of_true rfl ⟨by linarith [not_lt.mp h1], h6⟩
        · rw [if_neg h6]
          by_cases h24 : (d - now : ℚ) / 3600000 < 24
          · rw [if_pos h24]
            exact iff_of_false (by decide) (fun hc => h6 hc.2)
          · rw [if_neg h24]
            exact iff_of_false (by decide) (fun hc => h6 hc.2)
    · simp only [getUrgencyColor, hrem, Int.cast_sub, ecast]
      rw [if_neg hnneg]
      by_cases h1 : (d - now : ℚ) / 3600000 < 1
      · rw [if_pos h1]
        exact iff_of_false (by decide) (fun hc => by linarith [hc.1])
      · rw [if_neg h1]
        by_cases h6 : (d - now : ℚ) / 3600000 < 6
        · rw [if_pos h6]
          exact iff_of_false (by decide) (fun hc => by linarith [hc.1])
        · rw [if_neg h6]
          by_cases h24 : (d - now : ℚ) / 3600000 < 24
          · rw [if_pos h24]
            exact iff_of_true rfl ⟨by linarith [not_lt.mp h6], h24⟩
          · rw [if_neg h24]
            exact iff_of_false (by decide) (fun hc => h24 hc.2)
  · norm_num [getUrgencyColor, getTimeRemaining, scenarioEnv, scenarioNow]
  · have hp : scenarioEnv.parseDate "in3h" = some 1010800000 := by decide
    norm_num [getUrgencyColor, getTimeRemaining, hp, scenarioNow]

/-- Witness for C5: a deadline exactly 90 minutes ahead of `now` is in
the orange (warning) tier, and `isOverdue` agrees with the sign of the
remaining time there. -/
theorem getUrgencyColor_tiers_witness :
    getUrgencyColor ⟨fun s => if s = "D" then some 5400000 else none, 0⟩ "D" 0 =
      some ⟨"var(--orange-6)", "var(--orange-1)"⟩
    ∧ isOverdue ⟨fun s => if s = "D" then some 5400000 else none, 0⟩ "D" 0 = false := by
  have h := (getUrgencyColor_tiers ⟨fun s => if s = "D" then some 5400000 else none, 0⟩
      "D" 0 5400000 (by decide)).2.1 (by decide)
  refine ⟨h.2.1.mpr ⟨by norm_num, by norm_num⟩, by decide⟩

/-! ### Sorting lemmas -/

theorem mem_insertCmp {α : Type} (cmp : α → α → Int) (x a : α) (l : List α) :
    a ∈ insertCmp cmp x l ↔ a = x ∨ a ∈ l := by
  induction l with
  | nil => simp [insertCmp]
  | cons y ys ih =>
    simp only [insertCmp]
    split
    · simp [List.mem_cons]
    · simp only [List.mem_cons, ih]
      tauto

theorem insertCmp_perm {α : Type} (cmp : α → α → Int) (x : α) (l : List α) :
    (insertCmp cmp x l).Perm (x :: l) := by
  induction l with
  | nil => exact List.Perm.refl _
  | cons y ys ih =>
    simp only [insertCmp]
    split
    · exact List.Perm.refl _
    · exact (ih.cons y).trans (List.Perm.swap x y ys)

theorem sortCmp_perm {α : Type} (cmp : α → α → Int) (l : List α) :
    (sortCmp cmp l).Perm l := by
  induction l with
  | nil => exact List.Perm.refl _
  | cons x xs ih => exact (insertCmp_perm cmp x _).trans (ih.cons x)

theorem insertCmp_pairwise {α : Type} (cmp : α → α → Int) (P : α → Prop)
    (htot : ∀ a b, cmp a b ≤ 0 ∨ cmp b a ≤ 0)
    (htrans : ∀ a b c, P a → P b → P c → cmp a b ≤ 0 → cmp b c ≤ 0 → cmp a c ≤ 0)
    (x : α) (hx : P x) (l : List α) :
    (∀ y ∈ l, P y) → l.Pairwise (fun a b => cmp a b ≤ 0) →
      (insertCmp cmp x l).Pairwise (fun a b => cmp a b ≤ 0) := by
  induction l with
  | nil =>
    intro _ _
    simp [insertCmp]
  | cons y ys ih =>
    intro hl hs
    rw [List.pairwise_cons] at hs
    obtain ⟨hy, hys⟩ := hs
    simp only [insertCmp]
    split_ifs with hxy
    · refine List.Pairwise.cons ?_ (List.Pairwise.cons hy hys)
      intro z hz
      rcases List.mem_cons.mp hz with rfl | hz
      · exact hxy
      · exact htrans x y z hx (hl y (by simp)) (hl z (by simp [hz])) hxy (hy z hz)
    · have hyx : cmp y x ≤ 0 := (htot x y).resolve_left hxy
      refine List.Pairwise.cons ?_ (ih (fun z hz => hl z (by simp [hz])) hys)
      intro z hz
      rcases (mem_insertCmp cmp x z ys).mp hz with rfl | hz
      · exact hyx
      · exact hy z hz

theorem sortCmp_pairwise {α : Type} (cmp : α → α → Int) (P : α → Prop)
    (htot : ∀ a b, cmp a b ≤ 0 ∨ cmp b a ≤ 0)
    (htrans : ∀ a b c, P a → P b → P c → cmp a b ≤ 0 → cmp b c ≤ 0 → cmp a c ≤ 0)
    (l : List α) :
    (∀ y ∈ l, P y) → (sortCmp cmp l).Pairwise (fun a b => cmp a b ≤ 0) := by
  induction l with
  | nil =>
    intro _
    simp [sortCmp]
  | cons x xs ih =>
    intro hl
    refine insertCmp_pairwise cmp P htot htrans x (hl x (by simp)) _ ?_
      (ih (fun y hy => hl y (by simp [hy])))
    intro y hy
    exact hl y (by simp [(sortCmp_perm cmp xs).mem_iff.mp hy])

theorem cmpDeadline_neg (env : Env) (a b : Task) :
    cmpDeadline env a b = - cmpDeadline env b a := by
  simp only [cmpDeadline]
  by_cases h : dateMs env a.deadline = dateMs env b.deadline
  · rw [if_neg (by simp [h]), if_neg (by simp [h])]
    omega
  · rw [if_pos h, if_pos (Ne.symm h)]
    omega

theorem cmpPriority_neg (env : Env) (a b : Task) :
    cmpPriority env a b = - cmpPriority env b a := by
  simp only [cmpPriority]
  by_cases h : a.priority = b.priority
  · rw [if_neg (by simp [h]), if_neg (by simp [h])]
    exact cmpDeadline_neg env a b
  · rw [if_pos h, if_pos (Ne.symm h)]
    cases a.priority <;> cases b.priority <;> simp [jsNumSub] <;> omega

theorem cmpPriority_total (env : Env) (a b : Task) :
    cmpPriority env a b ≤ 0 ∨ cmpPriority env b a ≤ 0 := by
  have := cmpPriority_neg env a b
  omega

theorem isNum_exists {v : JVal} (h : v.isNum = true) : ∃ n, v = JVal.vNum n := by
  cases v with
  | vNum n => exact ⟨n, rfl⟩
  | vStr s => simp [JVal.isNum] at h
  | vBool b => simp [JVal.isNum] at h
  | vNull => simp [JVal.isNum] at h
  | vUndefined => simp [JVal.isNum] at h

theorem sortableTask_parts {env : Env} {t : Task} (h : sortableTask env t = true) :
    t.priority.isNum = true ∧ dateOk env t.deadline = true ∧ dateOk env t.createdAt = true := by
  simpa [sortableTask, Bool.and_eq_true, and_assoc] using h

theorem cmpDeadline_le_iff (env : Env) (a b : Task) :
    cmpDeadline env a b ≤ 0 ↔
      (dateMs env a.deadline < dateMs env b.deadline ∨
        (dateMs env a.deadline = dateMs env b.deadline ∧
          dateMs env a.createdAt ≤ dateMs env b.createdAt)) := by
  simp only [cmpDeadline]
  by_cases h : dateMs env a.deadline = dateMs env b.deadline
  · rw [if_neg (by simp [h])]
    omega
  · rw [if_pos h]
    omega

theorem cmpPriority_le_iff (env : Env) (a b : Task)
    (ha : sortableTask env a = true) (hb : sortableTask env b = true) :
    cmpPriority env a b ≤ 0 ↔ priorityOrder env a b := by
  obtain ⟨hna, -, -⟩ := sortableTask_parts ha
  obtain ⟨hnb, -, -⟩ := sortableTask_parts hb
  obtain ⟨pa, hpa⟩ := isNum_exists hna
  obtain ⟨pb, hpb⟩ := isNum_exists hnb
  simp only [cmpPriority, priorityOrder, hpa, hpb, numVal, jsNumSub]
  by_cases hp : pa = pb
  · subst hp
    rw [if_neg (by simp)]
    rw [cmpDeadline_le_iff]
    simp
  · rw [if_pos (by simp [hp])]
    constructor
    · intro hle
      exact Or.inl (by omega)
    · rintro (hlt | ⟨heq, -⟩)
      · omega
      · exact absurd heq hp

theorem cmpPriority_trans (env : Env) (a b c : Task)
    (ha : sortableTask env a = true) (hb : sortableTask env b = true)
    (hc : sortableTask env c = true)
    (h1 : cmpPriority env a b ≤ 0) (h2 : cmpPriority env b c ≤ 0) :
    cmpPriority env a c ≤ 0 := by
  rw [cmpPriority_le_iff env a b ha hb] at h1
  rw [cmpPriority_le_iff env b c hb hc] at h2
  rw [cmpPriority_le_iff env a c ha hc]
  unfold priorityOrder at h1 h2 ⊢
  omega

/-! ### Claim C6 -/

/-- Claim C6: on a non-empty collection of data-model tasks (numeric
priorities, parseable deadline and creation instants), `sortByPriority`
returns a permutation of the input that is ordered ascending by numeric
priority (1 = High first), ties broken by ascending parsed deadline
instant, remaining ties by ascending parsed `createdAt` instant; and
concretely tasks A (priority 3, deadline day 1), B (priority 1, deadline
day 3), C (priority 2, deadline day 2) sort to [B, C, A]. -/
theorem sortByPriority_sorts (env : Env) (tasks : List Task)
    (hall : ∀ t ∈ tasks, sortableTask env t = true) (hne : tasks ≠ []) :
    (sortByPriority env tasks).Perm tasks
    ∧ (sortByPriority env tasks).Pairwise (priorityOrder env)
    ∧ sortByPriority sortScenarioEnv [taskA, taskB, taskC] = [taskB, taskC, taskA] := by
  have hlen : ¬ tasks.length = 0 := by
    simpa [List.length_eq_zero] using hne
  have hsort : sortByPriority env tasks = sortCmp (cmpPriority env) tasks := by
    simp only [sortByPriority, if_neg hlen]
  refine ⟨?_, ?_, by decide⟩
  · rw [hsort]
    exact sortCmp_perm _ tasks
  · rw [hsort]
    have hpw := sortCmp_pairwise (cmpPriority env) (fun t => sortableTask env t = true)
      (cmpPriority_total env) (cmpPriority_trans env) tasks hall
    refine List.Pairwise.imp_of_mem ?_ hpw
    intro a b hamem hbmem hab
    exact (cmpPriority_le_iff env a b
      (hall a ((sortCmp_perm (cmpPriority env) tasks).mem_iff.mp hamem))
      (hall b ((sortCmp_perm (cmpPriority env) tasks).mem_iff.mp hbmem))).mp hab

/-- Witness for C6: the concrete scenario list is non-empty and sortable,
and the theorem applied to it yields the [B, C, A] ordering together with
its sortedness. -/
theorem sortByPriority_sorts_witness :
    sortByPriority sortScenarioEnv [taskA, taskB, taskC] = [taskB, taskC, taskA] := by
  exact (sortByPriority_sorts sortScenarioEnv [taskA, taskB, taskC]
    (by decide) (by decide)).2.2

/-! ### Claim C7 -/

/-- Claim C7: `sortByDeadline` and `sortByPriority` leave their input
array unmutated (every previously allocated array, the input included,
reads the same afterwards) and return a freshly allocated array — except
that an empty array or a non-array input is returned as the very same
reference/value, with the store untouched.  The fresh array holds the
comparator-sorted contents of the input. -/
theorem sort_functions_frame (env : Env) :
    (∀ h v, sortByDeadlineH env h (.other v) = (h, .other v) ∧
        sortByPriorityH env h (.other v) = (h, .other v))
    ∧ (∀ h r, h.read r = [] →
        sortByDeadlineH env h (.arr r) = (h, .arr r) ∧
        sortByPriorityH env h (.arr r) = (h, .arr r))
    ∧ (∀ h r, r < h.arrays.length → h.read r ≠ [] →
        ((sortByDeadlineH env h (.arr r)).2 = .arr h.arrays.length ∧
          (sortByDeadlineH env h (.arr r)).2 ≠ .arr r ∧
          (∀ i, i < h.arrays.length → (sortByDeadlineH env h (.arr r)).1.read i = h.read i) ∧
          (sortByDeadlineH env h (.arr r)).1.read h.arrays.length =
            sortCmp (cmpDeadline env) (h.read r))
        ∧ ((sortByPriorityH env h (.arr r)).2 = .arr h.arrays.length ∧
          (sortByPriorityH env h (.arr r)).2 ≠ .arr r ∧
          (∀ i, i < h.arrays.length → (sortByPriorityH env h (.arr r)).1.read i = h.read i) ∧
          (sortByPriorityH env h (.arr r)).1.read h.arrays.length =
            sortCmp (cmpPriority env) (h.read r))) := by
  refine ⟨fun h v => ⟨rfl, rfl⟩, ?_, ?_⟩
  · intro h r hempty
    have hlen : (h.read r).length = 0 := by simp [hempty]
    constructor
    · simp only [sortByDeadlineH, if_pos hlen]
    · simp only [sortByPriorityH, if_pos hlen]
  · intro h r hr hnonempty
    have hlen : ¬ (h.read r).length = 0 := by
      simpa [List.length_eq_zero] using hnonempty
    have hne : h.arrays.length ≠ r := by omega
    constructor
    · simp only [sortByDeadlineH, if_neg hlen]
      refine ⟨rfl, by simpa using hne, ?_, ?_⟩
      · intro i hi
        exact Heap.read_alloc_lt h _ i hi
      · exact Heap.read_alloc_self h _
    · simp only [sortByPriorityH, if_neg hlen]
      refine ⟨rfl, by simpa using hne, ?_, ?_⟩
      · intro i hi
        exact Heap.read_alloc_lt h _ i hi
      · exact Heap.read_alloc_self h _

/-- Witness for C7: on a one-element store holding the two-task scenario
array, sorting by deadline returns the fresh reference 1 whose contents
are sorted, leaving reference 0 unchanged; the empty-array and non-array
cases return their input identically. -/
theorem sort_functions_frame_witness :
    (sortByDeadlineH sortScenarioEnv ⟨[[taskA, taskB]]⟩ (.arr 0)).2 = .arr 1
    ∧ (sortByDeadlineH sortScenarioEnv ⟨[[taskA, taskB]]⟩ (.arr 0)).1.read 0 = [taskA, taskB]
    ∧ sortByDeadlineH sortScenarioEnv ⟨[[]]⟩ (.arr 0) = (⟨[[]]⟩, .arr 0)
    ∧ sortByPriorityH sortScenarioEnv ⟨[[]]⟩ (.other (.vNull)) = (⟨[[]]⟩, .other (.vNull)) := by
  have h := sort_functions_frame sortScenarioEnv
  have h3 := h.2.2 ⟨[[taskA, taskB]]⟩ 0 (by decide) (by decide)
  refine ⟨?_, ?_, (h.2.1 ⟨[[]]⟩ 0 (by decide)).1, (h.1 ⟨[[]]⟩ .vNull).2⟩
  · exact h3.1.1
  · have := h3.1.2.2.1 0 (by decide)
    rw [this]
    decide

theorem validateTask_fields (env : Env) (a b : Task)
    (ht : a.title = b.title) (hd : a.description = b.description)
    (hdl : a.deadline = b.deadline) (hp : a.priority = b.priority) :
    validateTask env a = validateTask env b := by
  simp [validateTask, ht, hd, hdl, hp]

/-! ### Import lemmas -/

theorem importStep_foldl (env : Env) (its : List Task) :
    ∀ (n : Nat) (ts : List Task) (es : List String) (k : Nat),
      (List.enumFrom n its).foldl (importStep env) (ts, es, k) =
        (ts ++ its.filterMap (acceptedTask env),
          es ++ (List.enumFrom n its).filterMap (fun p => entryError env p.1 p.2),
          k + (its.filterMap (acceptedTask env)).length) := by
  induction its with
  | nil =>
    intro n ts es k
    simp
  | cons t rest ih =>
    intro n ts es k
    rw [List.enumFrom_cons, List.foldl_cons]
    cases hT : truthy t.title with
    | false =>
      have hstep : importStep env (ts, es, k) (n, t) =
          (ts, es ++ ["Task " ++ toString (n + 1) ++ ": missing required fields"], k) := by
        simp [importStep, hT]
      have hacc : acceptedTask env t = none := by
        simp [acceptedTask, hT]
      have herr : entryError env n t =
          some ("Task " ++ toString (n + 1) ++ ": missing required fields") := by
        simp [entryError, hT]
      rw [hstep, ih (n + 1)]
      simp [List.filterMap_cons, hacc, herr]
    | true =>
      cases hD : truthy t.deadline with
      | false =>
        have hstep : importStep env (ts, es, k) (n, t) =
            (ts, es ++ ["Task " ++ toString (n + 1) ++ ": missing required fields"], k) := by
          simp [importStep, hT, hD]
        have hacc : acceptedTask env t = none := by
          simp [acceptedTask, hT, hD]
        have herr : entryError env n t =
            some ("Task " ++ toString (n + 1) ++ ": missing required fields") := by
          simp [entryError, hT, hD]
        rw [hstep, ih (n + 1)]
        simp [List.filterMap_cons, hacc, herr]
      | true =>
        cases hV : (validateTask env (processedImport t)).valid with
        | false =>
          have hstep : importStep env (ts, es, k) (n, t) =
              (ts, es ++ ["Task " ++ toString (n + 1) ++ ": "
                ++ String.intercalate ", " (validateTask env (processedImport t)).errors],
                k) := by
            simp [importStep, hT, hD, hV]
          have hacc : acceptedTask env t = none := by
            simp [acceptedTask, hT, hD, hV]
          have herr : entryError env n t =
              some ("Task " ++ toString (n + 1) ++ ": "
                ++ String.intercalate ", " (validateTask env (processedImport t)).errors) := by
            simp [entryError, hT, hD, hV]
          rw [hstep, ih (n + 1)]
          simp [List.filterMap_cons, hacc, herr]
        | true =>
          have hstep : importStep env (ts, es, k) (n, t) =
              (ts ++ [processedImport t], es, k + 1) := by
            simp [importStep, hT, hD, hV]
          have hacc : acceptedTask env t = some (processedImport t) := by
            simp [acceptedTask, hT, hD, hV]
          have herr : entryError env n t = none := by
            simp [entryError, hT, hD, hV]
          rw [hstep, ih (n + 1)]
          simp [List.filterMap_cons, hacc, herr, List.append_assoc]
          omega

theorem processImportedTasks_array (env : Env) (ct its : List Task) :
    processImportedTasks env ct (.array its) =
      ⟨true, ct ++ its.filterMap (acceptedTask env),
        (its.filterMap (acceptedTask env)).length,
        its.enum.filterMap (fun p => entryError env p.1 p.2)⟩ := by
  simp only [processImportedTasks, List.enum]
  rw [importStep_foldl env its 0 ct [] 0]
  simp

/-! ### Claim C8 -/

/-- Claim C8: a non-array import argument fails fast with the exact
`{success:false, tasks:currentTasks, imported:0, errors:[...]}` record;
an array argument always yields outer `success:true`, the errors being
exactly, in entry order, the 1-indexed `"Task {n}: missing required
fields"` message for every entry lacking a truthy title or deadline and
the 1-indexed joined-validation-errors message for every entry failing
`validateTask`, while exactly the remaining entries are appended (their
description truncated, `schemaVersion` forced to 1) and counted in
`imported`; the embedding is pure, and against the store neither input
array (nor any other allocated array) is changed, the non-array failure
returning the very `currentTasks` reference. -/
theorem processImportedTasks_spec (env : Env) (currentTasks : List Task) :
    (∀ v, processImportedTasks env currentTasks (.notArray v) =
        ⟨false, currentTasks, 0, ["Invalid import data: expected an array"]⟩)
    ∧ (∀ its, processImportedTasks env currentTasks (.array its) =
        ⟨true, currentTasks ++ its.filterMap (acceptedTask env),
          (its.filterMap (acceptedTask env)).length,
          its.enum.filterMap (fun p => entryError env p.1 p.2)⟩)
    ∧ (∀ n t, (truthy t.title = false ∨ truthy t.deadline = false) →
        entryError env n t = some ("Task " ++ toString (n + 1) ++ ": missing required fields")
          ∧ acceptedTask env t = none)
    ∧ (∀ n t, truthy t.title = true → truthy t.deadline = true →
        (validateTask env (processedImport t)).valid = false →
        entryError env n t = some ("Task " ++ toString (n + 1) ++ ": "
            ++ String.intercalate ", " (validateTask env (processedImport t)).errors)
          ∧ acceptedTask env t = none)
    ∧ (∀ n t, truthy t.title = true → truthy t.deadline = true →
        (validateTask env (processedImport t)).valid = true →
        entryError env n t = none ∧ acceptedTask env t = some (processedImport t))
    ∧ (∀ h rCur arg i, i < h.arrays.length →
        (processImportedTasksH env h rCur arg).1.read i = h.read i)
    ∧ (∀ h rCur v, processImportedTasksH env h rCur (.other v) =
        (h, ⟨false, rCur, 0, ["Invalid import data: expected an array"]⟩)) := by
  refine ⟨fun v => rfl, processImportedTasks_array env currentTasks, ?_, ?_, ?_, ?_,
    fun h rCur v => rfl⟩
  · intro n t hmiss
    rcases hmiss with hT | hD
    · exact ⟨by simp [entryError, hT], by simp [acceptedTask, hT]⟩
    · exact ⟨by simp [entryError, hD], by simp [acceptedTask, hD]⟩
  · intro n t hT hD hV
    exact ⟨by simp [entryError, hT, hD, hV], by simp [acceptedTask, hT, hD, hV]⟩
  · intro n t hT hD hV
    exact ⟨by simp [entryError, hT, hD, hV], by simp [acceptedTask, hT, hD, hV]⟩
  · intro h rCur arg i hi
    cases arg with
    | other v => rfl
    | arr rImp =>
      simp only [processImportedTasksH]
      exact Heap.read_alloc_lt h _ i hi

/-- Witness for C8: importing one valid task and one with a blank title
onto a one-task collection appends only the valid entry, reports
`imported = 1`, outer success, and the 1-indexed missing-fields error. -/
theorem processImportedTasks_spec_witness :
    processImportedTasks dupEnv [dupTask]
        (.array [sampleTask "new" 2 "D" "D", { sampleTask "bad" 1 "D" "D" with title := .vStr "" }]) =
      ⟨true, [dupTask, sampleTask "new" 2 "D" "D"], 1, ["Task 2: missing required fields"]⟩
    ∧ entryError dupEnv 1 { sampleTask "bad" 1 "D" "D" with title := .vStr "" } =
        some "Task 2: missing required fields" := by
  constructor
  · rw [(processImportedTasks_spec dupEnv [dupTask]).2.1]
    decide
  · have h := ((processImportedTasks_spec dupEnv [dupTask]).2.2.1 1
      { sampleTask "bad" 1 "D" "D" with title := .vStr "" } (Or.inl (by decide))).1
    rw [h]
    decide

/-! ### Claim C10 -/

/-- Claim C10: `processImportedTasks` performs no id-uniqueness check:
the appended entries are exactly the per-entry accepted transforms, an
accepted entry keeps its id unchanged, acceptance does not depend on the
id at all (replacing the id of a candidate does not change whether it is
accepted) nor on `currentTasks`, and concretely re-importing the
one-task collection `[dupTask]` onto itself yields two tasks with the
same id, violating the data model's id-uniqueness invariant. -/
theorem processImportedTasks_no_dedup (env : Env) :
    (∀ ct its, (processImportedTasks env ct (.array its)).tasks =
        ct ++ its.filterMap (acceptedTask env))
    ∧ (∀ t p, acceptedTask env t = some p → p.id = t.id)
    ∧ (∀ t j, (acceptedTask env { t with id := j }).isSome = (acceptedTask env t).isSome)
    ∧ (processImportedTasks dupEnv [dupTask] (.array [dupTask])).tasks.map Task.id =
        [.vStr "dup", .vStr "dup"]
    ∧ ¬ ((processImportedTasks dupEnv [dupTask] (.array [dupTask])).tasks.map Task.id).Nodup := by
  refine ⟨?_, ?_, ?_, by decide, by decide⟩
  · intro ct its
    rw [processImportedTasks_array]
  · intro t p hacc
    unfold acceptedTask at hacc
    split_ifs at hacc
    · injection hacc with h
      rw [← h]
      rfl
    all_goals exact Option.noConfusion hacc
  · intro t j
    have hv : validateTask env (processedImport { t with id := j }) =
        validateTask env (processedImport t) :=
      validateTask_fields env _ _ rfl rfl rfl rfl
    simp only [acceptedTask, hv]
    split_ifs <;> rfl

/-- Witness for C10: re-importing the export of `[dupTask]` onto itself
puts two tasks with the id `"dup"` into the returned collection, and the
accepted entry keeps its id. -/
theorem processImportedTasks_no_dedup_witness :
    dupTask.id = dupTask.id
    ∧ ¬ ((processImportedTasks dupEnv [dupTask] (.array [dupTask])).tasks.map Task.id).Nodup :=
  ⟨(processImportedTasks_no_dedup dupEnv).2.1 dupTask dupTask (by decide),
    (processImportedTasks_no_dedup dupEnv).2.2.2.2⟩

/-! ### Claim C9 -/

theorem truncateDescription_length (v : JVal) : (truncateDescription v).length ≤ 300 := by
  cases v with
  | vStr s =>
    show (if s = "" then "" else if s.length > 300 then s.take 300 else s).length ≤ 300
    split_ifs with h1 h2
    · decide
    · rw [String.take_eq]
      simp only [String.length]
      rw [List.length_take]
      omega
    · omega
  | vNum n =>
    show ("" : String).length ≤ 300
    decide
  | vBool b =>
    show ("" : String).length ≤ 300
    decide
  | vNull =>
    show ("" : String).length ≤ 300
    decide
  | vUndefined =>
    show ("" : String).length ≤ 300
    decide

theorem mergedTruncated_id (nowStr : String) (existingTask : Task) (updates : Updates) :
    (mergedTruncated nowStr existingTask updates).id = existingTask.id
    ∧ (mergedTruncated nowStr existingTask updates).createdAt = existingTask.createdAt
    ∧ (mergedTruncated nowStr existingTask updates).lastModified = .vStr nowStr := by
  unfold mergedTruncated
  split_ifs <;> exact ⟨rfl, rfl, rfl⟩

theorem mergedTruncated_description (nowStr : String) (existingTask : Task)
    (updates : Updates) :
    truthy (mergedTruncated nowStr existingTask updates).description = true →
    ∃ s, (mergedTruncated nowStr existingTask updates).description = .vStr s
      ∧ s.length ≤ 300 := by
  unfold mergedTruncated
  split_ifs with h
  · intro _
    exact ⟨truncateDescription (mergedTask nowStr existingTask updates).description, rfl,
      truncateDescription_length _⟩
  · intro hcontra
    exact absurd hcontra h

/-- Claim C9: for every existing task and every updates object — also
when `updates` carries its own `id` or `createdAt` values, which the
universally quantified `updates` includes and the merge ignores — the
merged task keeps the existing task's `id` and `createdAt`, carries
`lastModified` equal to the instant of the call, and (when its
description is present, i.e. truthy, after the merge) a string
description of at most 300 characters; a successful `processTaskUpdate`
returns exactly that merged task, and when validation of the merged
result fails it returns `success: false` with `task: null` and the
validation errors. -/
theorem processTaskUpdate_spec (env : Env) (nowStr : String) (existingTask : Task)
    (updates : Updates) :
    ((mergedTruncated nowStr existingTask updates).id = existingTask.id
      ∧ (mergedTruncated nowStr existingTask updates).createdAt = existingTask.createdAt
      ∧ (mergedTruncated nowStr existingTask updates).lastModified = .vStr nowStr)
    ∧ ((processTaskUpdate env nowStr existingTask updates).success = true →
        (processTaskUpdate env nowStr existingTask updates).task =
          some (mergedTruncated nowStr existingTask updates)
        ∧ ∃ t, (processTaskUpdate env nowStr existingTask updates).task = some t
            ∧ t.id = existingTask.id ∧ t.createdAt = existingTask.createdAt
            ∧ t.lastModified = .vStr nowStr
            ∧ (truthy t.description = true → ∃ s, t.description = .vStr s ∧ s.length ≤ 300))
    ∧ ((validateTask env (mergedTruncated nowStr existingTask updates)).valid = false →
        processTaskUpdate env nowStr existingTask updates =
          ⟨false, none, (validateTask env (mergedTruncated nowStr existingTask updates)).errors⟩) := by
  obtain ⟨hid, hca, hlm⟩ := mergedTruncated_id nowStr existingTask updates
  refine ⟨⟨hid, hca, hlm⟩, ?_, ?_⟩
  · intro hsucc
    by_cases hval : (validateTask env (mergedTruncated nowStr existingTask updates)).valid = false
    · exfalso
      simp only [processTaskUpdate, if_pos hval] at hsucc
      exact absurd hsucc (by decide)
    · constructor
      · simp only [processTaskUpdate, if_neg hval]
      · refine ⟨mergedTruncated nowStr existingTask updates, ?_, hid, hca, hlm,
          mergedTruncated_description nowStr existingTask updates⟩
        simp only [processTaskUpdate, if_neg hval]
  · intro hval
    simp only [processTaskUpdate, if_pos hval]

/-- Witness for C9: updating a concrete task with an updates object that
tries to overwrite `id` and `createdAt` succeeds and returns the task
with its original `id`/`createdAt`, the new title, and the stamped
`lastModified`. -/
theorem processTaskUpdate_spec_witness :
    (processTaskUpdate dupEnv "NOW" dupTask
        { id := some (.vStr "evil"), createdAt := some (.vStr "evil"),
          title := some (.vStr "Renamed") }).task =
      some { dupTask with title := .vStr "Renamed", lastModified := .vStr "NOW" } := by
  have h := (processTaskUpdate_spec dupEnv "NOW" dupTask
      { id := some (.vStr "evil"), createdAt := some (.vStr "evil"),
        title := some (.vStr "Renamed") }).2.1 (by decide)
  rw [h.1]
  decide

/-! ### Round-trip lemmas -/

theorem jval_roundtrip {v : JVal} (h : v.isDefined = true) :
    ∃ j, v.toJson = some j ∧ jsonPrimToJVal j = some v := by
  cases v with
  | vStr s => exact ⟨.jStr s, rfl, rfl⟩
  | vNum n => exact ⟨.jNum n, rfl, rfl⟩
  | vBool b => exact ⟨.jBool b, rfl, rfl⟩
  | vNull => exact ⟨.jNull, rfl, rfl⟩
  | vUndefined => simp [JVal.isDefined] at h

theorem taskFromJson_toJson {t : Task} (h : t.fieldsDefined = true) :
    taskFromJson t.toJson = some t := by
  simp only [Task.fieldsDefined, Bool.and_eq_true] at h
  obtain ⟨⟨⟨⟨⟨⟨⟨⟨h1, h2⟩, h3⟩, h4⟩, h5⟩, h6⟩, h7⟩, h8⟩, h9⟩ := h
  obtain ⟨j1, ha1, hb1⟩ := jval_roundtrip h1
  obtain ⟨j2, ha2, hb2⟩ := jval_roundtrip h2
  obtain ⟨j3, ha3, hb3⟩ := jval_roundtrip h3
  obtain ⟨j4, ha4, hb4⟩ := jval_roundtrip h4
  obtain ⟨j5, ha5, hb5⟩ := jval_roundtrip h5
  obtain ⟨j6, ha6, hb6⟩ := jval_roundtrip h6
  obtain ⟨j7, ha7, hb7⟩ := jval_roundtrip h7
  obtain ⟨j8, ha8, hb8⟩ := jval_roundtrip h8
  obtain ⟨j9, ha9, hb9⟩ := jval_roundtrip h9
  simp [Task.toJson, taskFromJson, jsonField, List.filterMap_cons,
    ha1, ha2, ha3, ha4, ha5, ha6, ha7, ha8, ha9, List.lookup_cons,
    hb1, hb2, hb3, hb4, hb5, hb6, hb7, hb8, hb9]

theorem tasksFromJson_exportTasks : ∀ (tasks : List Task),
    (∀ t ∈ tasks, t.fieldsDefined = true) →
    tasksFromJson (exportTasks tasks) = some tasks := by
  intro tasks
  induction tasks with
  | nil =>
    intro _
    rfl
  | cons t ts ih =>
    intro hfields
    have hts := ih (fun u hu => hfields u (by simp [hu]))
    simp only [exportTasks, tasksFromJson] at hts ⊢
    rw [List.map_cons, List.foldr_cons, taskFromJson_toJson (hfields t (by simp)), hts]
    rfl

theorem validateTask_valid_parts (env : Env) (t : Task)
    (h : (validateTask env t).valid = true) :
    (validateTitle t.title).valid = true ∧ (validateDescription t.description).valid = true
    ∧ (validateDeadline env t.deadline).valid = true
    ∧ (validatePriority t.priority).valid = true := by
  rw [validateTask_valid_iff, validateTask_errors] at h
  simp only [List.append_eq_nil] at h
  obtain ⟨⟨⟨h1, h2⟩, h3⟩, h4⟩ := h
  refine ⟨?_, ?_, ?_, ?_⟩
  · by_contra hc
    rw [Bool.not_eq_true] at hc
    obtain ⟨e, he⟩ := validateTitle_invalid_error _ hc
    rw [pushError_invalid _ _ hc he] at h1
    exact List.cons_ne_nil e [] h1
  · by_contra hc
    rw [Bool.not_eq_true] at hc
    obtain ⟨e, he⟩ := validateDescription_invalid_error _ hc
    rw [pushError_invalid _ _ hc he] at h2
    exact List.cons_ne_nil e [] h2
  · by_contra hc
    rw [Bool.not_eq_true] at hc
    obtain ⟨e, he⟩ := validateDeadline_invalid_error env _ hc
    rw [pushError_invalid _ _ hc he] at h3
    exact List.cons_ne_nil e [] h3
  · by_contra hc
    rw [Bool.not_eq_true] at hc
    obtain ⟨e, he⟩ := validatePriority_invalid_error _ hc
    rw [pushError_invalid _ _ hc he] at h4
    exact List.cons_ne_nil e [] h4

theorem validateTitle_valid_truthy {v : JVal} (h : (validateTitle v).valid = true) :
    truthy v = true := by
  cases v with
  | vStr s =>
    simp only [validateTitle] at h
    by_cases hs : (jsTrim s).length = 0
    · rw [if_pos hs] at h
      simp at h
    · have hne : s ≠ "" := fun heq => hs (by rw [heq]; decide)
      simp [truthy, hne]
  | vNum n => simp [validateTitle] at h
  | vBool b => simp [validateTitle] at h
  | vNull => simp [validateTitle] at h
  | vUndefined => simp [validateTitle] at h

theorem validateDeadline_valid_truthy {env : Env} {v : JVal}
    (h : (validateDeadline env v).valid = true) : truthy v = true := by
  cases v with
  | vStr s =>
    by_cases hs : s = ""
    · simp [validateDeadline, hs] at h
    · simp [truthy, hs]
  | vNum n => simp [validateDeadline] at h
  | vBool b => simp [validateDeadline] at h
  | vNull => simp [validateDeadline] at h
  | vUndefined => simp [validateDeadline] at h

theorem isShortString_exists {v : JVal} (h : isShortString v = true) :
    ∃ s, v = JVal.vStr s ∧ s.length ≤ 300 := by
  cases v with
  | vStr s =>
    refine ⟨s, rfl, ?_⟩
    simpa [isShortString] using h
  | vNum n => simp [isShortString] at h
  | vBool b => simp [isShortString] at h
  | vNull => simp [isShortString] at h
  | vUndefined => simp [isShortString] at h

theorem processedImport_eq_self {t : Task}
    (hd : isShortString t.description = true) (hsv : t.schemaVersion = JVal.vNum 1) :
    processedImport t = t := by
  obtain ⟨s, hs, hlen⟩ := isShortString_exists hd
  have hdesc : JVal.vStr (truncateDescription (jsOr t.description (.vStr ""))) =
      t.description := by
    rw [hs]
    by_cases hse : s = ""
    · subst hse
      decide
    · have h300 : ¬ s.length > 300 := by omega
      simp [jsOr, truthy, hse, truncateDescription, h300]
  obtain ⟨id, ti, de, dl, pr, ic, ca, lm, sv⟩ := t
  simp only [processedImport] at hdesc hsv ⊢
  simp_all

theorem import_accepts_valid (env : Env) (t : Task)
    (hv : (validateTask env t).valid = true)
    (hd : isShortString t.description = true)
    (hsv : t.schemaVersion = JVal.vNum 1) :
    acceptedTask env t = some t ∧ ∀ n, entryError env n t = none := by
  obtain ⟨hti, -, hdl, -⟩ := validateTask_valid_parts env t hv
  have hT := validateTitle_valid_truthy hti
  have hD := validateDeadline_valid_truthy hdl
  have hPI := processedImport_eq_self hd hsv
  constructor
  · simp [acceptedTask, hT, hD, hPI, hv]
  · intro n
    simp [entryError, hT, hD, hPI, hv]

theorem filterMap_acceptedTask_eq_self (env : Env) : ∀ (tasks : List Task),
    (∀ t ∈ tasks, (validateTask env t).valid = true) →
    (∀ t ∈ tasks, isShortString t.description = true) →
    (∀ t ∈ tasks, t.schemaVersion = JVal.vNum 1) →
    tasks.filterMap (acceptedTask env) = tasks := by
  intro tasks
  induction tasks with
  | nil =>
    intro _ _ _
    rfl
  | cons t ts ih =>
    intro h1 h2 h3
    rw [List.filterMap_cons,
      (import_accepts_valid env t (h1 t (by simp)) (h2 t (by simp)) (h3 t (by simp))).1,
      ih (fun u hu => h1 u (by simp [hu])) (fun u hu => h2 u (by simp [hu]))
        (fun u hu => h3 u (by simp [hu]))]

theorem snd_mem_of_mem_enumFrom {α : Type} : ∀ (l : List α) (n : Nat) (p : Nat × α),
    p ∈ l.enumFrom n → p.2 ∈ l := by
  intro l
  induction l with
  | nil =>
    intro n p hp
    simp at hp
  | cons x xs ih =>
    intro n p hp
    rw [List.enumFrom_cons] at hp
    rcases List.mem_cons.mp hp with rfl | hp
    · simp
    · exact List.mem_cons_of_mem x (ih (n + 1) p hp)

/-! ### Claim C3 -/

/-- Claim C3: for a collection of data-model tasks each passing all
validity constraints (valid task validation, string description of at
most 300 characters, `schemaVersion` 1, every field present), export
followed by parse reproduces exactly the same collection, and
`processImportedTasks([], ...)` on it returns outer success, `imported`
equal to the collection's length, zero errors, and a collection equal to
the input (same ids, same field values). -/
theorem export_import_roundtrip (env : Env) (tasks : List Task)
    (hvalid : ∀ t ∈ tasks, (validateTask env t).valid = true)
    (hdesc : ∀ t ∈ tasks, isShortString t.description = true)
    (hsv : ∀ t ∈ tasks, t.schemaVersion = JVal.vNum 1)
    (hfields : ∀ t ∈ tasks, t.fieldsDefined = true) :
    tasksFromJson (exportTasks tasks) = some tasks
    ∧ processImportedTasks env [] (.array tasks) = ⟨true, tasks, tasks.length, []⟩ := by
  refine ⟨tasksFromJson_exportTasks tasks hfields, ?_⟩
  have hacc := filterMap_acceptedTask_eq_self env tasks hvalid hdesc hsv
  have herr : tasks.enum.filterMap (fun p => entryError env p.1 p.2) = [] := by
    rw [List.filterMap_eq_nil_iff]
    intro p hp
    have hmem : p.2 ∈ tasks := snd_mem_of_mem_enumFrom tasks 0 p hp
    exact (import_accepts_valid env p.2 (hvalid p.2 hmem) (hdesc p.2 hmem)
      (hsv p.2 hmem)).2 p.1
  rw [processImportedTasks_array, hacc, herr]
  simp

/-- Witness for C3: the one-task collection `[dupTask]` round-trips
through export/parse and re-imports onto the empty collection with
`imported = 1` and no errors. -/
theorem export_import_roundtrip_witness :
    tasksFromJson (exportTasks [dupTask]) = some [dupTask]
    ∧ processImportedTasks dupEnv [] (.array [dupTask]) = ⟨true, [dupTask], 1, []⟩ := by
  have h := export_import_roundtrip dupEnv [dupTask]
    (by decide) (by decide) (by decide) (by decide)
  exact ⟨h.1, h.2⟩

end NearZero
